import Mathlib

/-!
Verification of the journal-generator core (example sampling, prompt assembly,
response extraction, word-count adherence and truncation) against its
natural-language specification.

Python strings are embedded as `List Char` where character-level surgery
matters (splitting, trimming, joining) and as Lean `String` where only
concatenation matters (prompt assembly).  Python float expressions
`int(t * 1.5)` and `int(t * 0.10)` are embedded as exact integer divisions
`3 * t / 2` and `t / 10`; IEEE double evaluation of these expressions agrees
with the exact value for every magnitude that can arise here (checked: no
divergence below 3 * 10 ^ 8), so the embedding is faithful.  The external
nltk tokenizer word_tokenize is a parameter `tok`; hypotheses about it are
stated explicitly where a claim needs them, and the whitespace splitter
pySplit is used to discharge them in witnesses.
-/

/-- Whitespace test used by Python str.split and str.strip. -/
def isWs (c : Char) : Bool := c.isWhitespace

/-- Python str.strip: drop whitespace from both ends. -/
def pyStrip (l : List Char) : List Char :=
  ((l.dropWhile isWs).reverse.dropWhile isWs).reverse

/-- Fuel-based worker for Python str.split() with no argument:
maximal runs of non-whitespace characters.  Fuel at least the length of the
list makes the result independent of the fuel. -/
def pySplitF : Nat → List Char → List (List Char)
  | 0, _ => []
  | _ + 1, [] => []
  | fuel + 1, c :: cs =>
    if isWs c then pySplitF fuel cs
    else (c :: cs.takeWhile (fun d => !isWs d)) ::
      pySplitF fuel (cs.dropWhile (fun d => !isWs d))

/-- Python text.split(): the list of whitespace-delimited words. -/
def pySplit (l : List Char) : List (List Char) := pySplitF l.length l

/-- Python " ".join on character lists. -/
def joinWords : List (List Char) → List Char
  | [] => []
  | [w] => w
  | w :: ws => w ++ ' ' :: joinWords ws

/-- Fuel-based worker for Python str.replace (leftmost, non-overlapping). -/
def replaceF (pat repl : List Char) : Nat → List Char → List Char
  | 0, l => l
  | _ + 1, [] => []
  | fuel + 1, c :: cs =>
    if pat.isPrefixOf (c :: cs) then
      repl ++ replaceF pat repl fuel ((c :: cs).drop pat.length)
    else c :: replaceF pat repl fuel cs

/-- Python str.replace on character lists. -/
def replaceL (pat repl l : List Char) : List Char := replaceF pat repl l.length l

/-- Decimal digits of a natural number, most significant first (fuel-based,
fuel at least the number itself suffices). -/
def natDigits : Nat → Nat → List Char
  | 0, _ => []
  | fuel + 1, n =>
    if n = 0 then [] else natDigits fuel (n / 10) ++ [Char.ofNat (48 + n % 10)]

/-- Python str(n) for a natural number. -/
def natRepr (n : Nat) : String :=
  if n = 0 then "0" else String.mk (natDigits n n)

/-- Python str.lower (character-wise). -/
def strLower (s : String) : String := String.mk (s.data.map Char.toLower)

/-- Concatenation of a list of strings. -/
def strConcat : List String → String
  | [] => ""
  | s :: ss => s ++ strConcat ss

/-- Python sep.join(parts). -/
def pyJoin (sep : String) : List String → String
  | [] => ""
  | [s] => s
  | s :: ss => s ++ sep ++ pyJoin sep ss

/-! ## utils.py -/

/-- utils.clean_generated_text: strip leading and trailing whitespace. -/
def clean_generated_text (text : List Char) : List Char := pyStrip text

/-- utils.count_words: `len(text.split())`, with 0 for the empty string. -/
def count_words (text : List Char) : Nat :=
  if text = [] then 0 else (pySplit text).length

/-- utils.check_word_count_adherence.  Exact rational arithmetic embeds the
Python float arithmetic, which is exact on these operands (products of an
integer with 0.5 and 1.5, and an exact division for the deviation report). -/
def check_word_count_adherence (text_word_count target_word_count : Nat)
    (tolerance_percentage : ℚ) : Bool × ℚ :=
  if target_word_count = 0 then (text_word_count == 0, 0)
  else
    (decide ((target_word_count : ℚ) * (1 - tolerance_percentage) ≤ text_word_count ∧
        (text_word_count : ℚ) ≤ target_word_count * (1 + tolerance_percentage)),
      ((text_word_count : ℚ) - target_word_count) / target_word_count)

/-- utils.smart_truncate_text, with the nltk word_tokenize call abstracted as
the parameter `tok`: if the token count is within target plus overshoot the
text is returned as is, otherwise the first `target_word_count` tokens are
joined with single spaces and stripped. -/
def smart_truncate_text (tok : List Char → List (List Char)) (text : List Char)
    (target_word_count max_overshoot_words : Nat) : List Char :=
  let words := tok text
  if words.length ≤ target_word_count + max_overshoot_words then text
  else pyStrip (joinWords (words.take target_word_count))

/-! ## generator.py -/

/-- generator.JournalGenerator.generate_entry, post-processing tail
(lines 136-160): clean the raw text, count words by simple split, check
adherence with the default 0.5 tolerance, and truncate only when the count
exceeds the target, with overshoot allowance `int(avg_word_count * 0.10)`
(exactly `avg_word_count / 10` for all realistic magnitudes). -/
def generate_entry_tail (tok : List Char → List (List Char)) (raw : List Char)
    (avg_word_count : Nat) : List Char :=
  let cleaned := clean_generated_text raw
  let current_word_count := count_words cleaned
  let verdict := check_word_count_adherence current_word_count avg_word_count (1 / 2)
  if verdict.1 then cleaned
  else if avg_word_count < current_word_count then
    smart_truncate_text tok cleaned avg_word_count (avg_word_count / 10)
  else cleaned

/-- generator.JournalGenerator.generate_entry, token-budget computation
(lines 76-81): `max(50, int(avg_word_count * 1.5) + 30)` when no override is
given, the override verbatim otherwise.  `int(avg_word_count * 1.5)` is
exactly `3 * avg_word_count / 2`. -/
def calculated_max_output_tokens (avg_word_count max_new_tokens : Nat) : Nat :=
  if max_new_tokens = 0 then max 50 (3 * avg_word_count / 2 + 30)
  else max_new_tokens

/-- The double-quote character. -/
def dqc : Char := '"'

/-- The single-quote character. -/
def sqc : Char := '\x27'

/-- The triple-quote neutralization applied to each example before embedding
it in the prompt: `ex.replace('"""', '"').replace("'''", "'")`. -/
def neutralize_example (ex : String) : String :=
  String.mk (replaceL [sqc, sqc, sqc] [sqc] (replaceL [dqc, dqc, dqc] [dqc] ex.data))

/-- First fixed prompt part, up to the interpolated tag. -/
def promptP1pre : String :=
  "Write a journal entry that very much focuses on the tone/style preset: "

/-- Second fixed prompt part, around the interpolated word count. -/
def promptP2pre : String := "The entry must be approximately "

/-- Tail of the second prompt part. -/
def promptP2post : String := " words long."

/-- Third fixed prompt part. -/
def promptP3 : String :=
  "Generate only the journal entry text itself, without any introductory phrases like \x27Here is a journal entry:\x27 or similar. Do not include any titles or extra formatting beyond standard paragraph breaks if needed."

/-- Header introducing the examples. -/
def promptExHeader : String :=
  "\nHere are some examples of style and tone to guide you:"

/-- Closing instruction used when examples are present. -/
def promptCloseWithEx : String :=
  "\nBased on these examples, and keeping a similar style and tone, write the new journal entry:"

/-- Closing instruction used when no examples are present. -/
def promptCloseNoEx : String :=
  "\nWrite the new journal entry now, following all rules above:"

/-- The prompt part for example number `i` (0-based index, 1-based label):
`f'\nExample {i+1}: "{temp_ex}"'`. -/
def examplePart (i : Nat) (ex : String) : String :=
  "\nExample " ++ natRepr (i + 1) ++ ": " ++ String.mk [dqc] ++
    neutralize_example ex ++ String.mk [dqc]

/-- generator.JournalGenerator._construct_prompt_text: assemble the prompt
parts and join them with single spaces. -/
def construct_prompt_text (target_emotion : String) (avg_word_count : Nat)
    (example_entries : List String) : String :=
  let base := [promptP1pre ++ target_emotion ++ ".",
    promptP2pre ++ natRepr avg_word_count ++ promptP2post,
    promptP3]
  let parts :=
    if example_entries.isEmpty then base ++ [promptCloseNoEx]
    else base ++ [promptExHeader] ++
      (example_entries.enum.map fun p => examplePart p.1 p.2) ++
      [promptCloseWithEx]
  pyJoin " " parts

/-- Shape of a Gemini API response as used by generate_entry: a list of
candidates, each a list of content-part texts, plus an optional block reason.
The accessors below mirror the API: `response.parts` is the part list of the
first candidate and `response.text` is their concatenation. -/
structure GeminiResponse where
  candidates : List (List String)
  blockReason : Option String
deriving DecidableEq

/-- `response.parts`: the content parts of the first candidate. -/
def responseParts (r : GeminiResponse) : List String :=
  match r.candidates with
  | [] => []
  | c :: _ => c

/-- `response.text`: the combined text of the parts. -/
def responseText (r : GeminiResponse) : String := strConcat (responseParts r)

/-- generate_entry response extraction (lines 116-127): the raw text, or
`none` when the function bails out with the empty-string sentinel. -/
def extract_generated_text (r : GeminiResponse) : Option String :=
  if (responseParts r).isEmpty = false then some (responseText r)
  else
    match r.candidates with
    | c :: _ => if c.isEmpty = false then some (strConcat c) else none
    | [] => none

/-- generate_entry after the prompt is sent (lines 103-160): a service
exception (`Except.error`) is caught and becomes the empty-string sentinel,
an unusable response becomes the empty-string sentinel, and an extracted raw
text goes through the adherence tail. -/
def generate_entry_result (tok : List Char → List (List Char))
    (call : Except String GeminiResponse) (avg_word_count : Nat) : List Char :=
  match call with
  | Except.error _ => []
  | Except.ok r =>
    match extract_generated_text r with
    | none => []
    | some raw => generate_entry_tail tok raw.data avg_word_count

/-- The extraction precedence exactly as the specification words it:
(a) the direct combined-text field if present and non-empty, (b) else the
concatenation of the first candidate content-part texts if present and
non-empty, (c) else failure. -/
def extract_spec (r : GeminiResponse) : Option String :=
  if responseText r ≠ "" then some (responseText r)
  else if strConcat (match r.candidates with | [] => [] | c :: _ => c) ≠ "" then
    some (strConcat (match r.candidates with | [] => [] | c :: _ => c))
  else none

/-- The generation result as described by the specification: extraction by
the stated precedence, failures and exceptions becoming the empty-string
sentinel, successful text going through the adherence tail. -/
def generate_entry_spec (tok : List Char → List (List Char))
    (call : Except String GeminiResponse) (avg_word_count : Nat) : List Char :=
  match call with
  | Except.error _ => []
  | Except.ok r =>
    match extract_spec r with
    | none => []
    | some raw => generate_entry_tail tok raw.data avg_word_count

/-! ## data_loader.py -/

/-- A pandas column as the loader sees it: boolean, numeric, or object
(string) dtype. -/
inductive ColData where
  | bools (vs : List Bool)
  | nums (vs : List Int)
  | objs (vs : List String)
deriving DecidableEq

/-- The slice of a pandas DataFrame that get_examples_for_prompt touches:
the Answer column and the emotion columns, as an association list from
column name to column data. -/
structure DataFrame where
  answers : List String
  emoCols : List (String × ColData)
deriving DecidableEq

/-- The emotion column name for a tag: `f"Answer.f1.{target_emotion.lower()}.raw"`. -/
def emotion_column_name (target_emotion : String) : String :=
  "Answer.f1." ++ strLower target_emotion ++ ".raw"

/-- In-place column assignment `df[col] = ...`. -/
def setCol (cols : List (String × ColData)) (name : String) (cd : ColData) :
    List (String × ColData) :=
  cols.map fun p => if p.1 = name then (p.1, cd) else p

/-- `df[df[col] == True]['Answer'].tolist()`: the Answer entries of the rows
whose flag is true, in source order. -/
def matchesBool (answers : List String) (flags : List Bool) : List String :=
  ((answers.zip flags).filter fun p => p.2).map Prod.fst

/-- data_loader.get_examples_for_prompt (lines 89-127).  The `random.sample`
call is abstracted as the parameter `sample`; the function returns both its
result and the post-call DataFrame, making the in-place coercion of a
numeric emotion column (line 113) observable. -/
def get_examples_for_prompt (sample : List String → Nat → List String)
    (df : DataFrame) (target_emotion : String) (num_examples : Int) :
    List String × DataFrame :=
  if num_examples ≤ 0 then ([], df)
  else
    let colName := emotion_column_name target_emotion
    match df.emoCols.lookup colName with
    | none => ([], df)
    | some (ColData.objs _) => ([], df)
    | some cd =>
      let coerced :=
        match cd with
        | ColData.nums vs => (vs.map fun v => v != 0, DataFrame.mk df.answers
            (setCol df.emoCols colName (ColData.bools (vs.map fun v => v != 0))))
        | ColData.bools vs => (vs, df)
        | ColData.objs _ => ([], df)
      let ms := matchesBool coerced.2.answers coerced.1
      if ms = [] then ([], coerced.2)
      else if (ms.length : Int) < num_examples then (ms, coerced.2)
      else (sample ms num_examples.toNat, coerced.2)

/-! ## Specification-side predicates -/

/-- Well-formed token lists: every token is non-empty and free of whitespace,
as the nltk word tokenizer produces. -/
def GoodTokens (ws : List (List Char)) : Prop :=
  ∀ w ∈ ws, w ≠ [] ∧ ∀ c ∈ w, isWs c = false

/-- A tokenizer that recovers the token list from a space-joined rendering of
well-formed tokens. -/
def FaithfulTok (tok : List Char → List (List Char)) : Prop :=
  ∀ ws, GoodTokens ws → tok (joinWords ws) = ws

/-- The patterns occur in the list in the given order, each strictly after
the end of the previous one. -/
def ContainsInOrder : List (List Char) → List Char → Prop
  | [], _ => True
  | p :: ps, l => ∃ l1 l2, l = l1 ++ p ++ l2 ∧ ContainsInOrder ps l2

/-- The 1-based example labels, starting at offset `k`: label `k + 1` for the
first example, and so on. -/
def labelsFrom (k : Nat) : List String → List (List Char)
  | [] => []
  | _ :: es => ("Example " ++ natRepr (k + 1)).data :: labelsFrom (k + 1) es

/-- Whether an optional column is numeric-typed (the one case in which
get_examples_for_prompt coerces the column in place). -/
def isNumericCol : Option ColData → Bool
  | some (ColData.nums _) => true
  | _ => false

/-! ## Lemmas about the splitting primitives -/

theorem pySplitF_nil (fuel : Nat) : pySplitF fuel [] = [] := by
  cases fuel <;> rfl

theorem pySplitF_congr : ∀ (n : Nat) (l : List Char), l.length ≤ n →
    ∀ f1 f2, l.length ≤ f1 → l.length ≤ f2 → pySplitF f1 l = pySplitF f2 l := by
  intro n
  induction n with
  | zero =>
    intro l hl f1 f2 _ _
    have : l = [] := List.eq_nil_of_length_eq_zero (Nat.le_zero.mp hl)
    subst this
    rw [pySplitF_nil, pySplitF_nil]
  | succ n ih =>
    intro l hl f1 f2 h1 h2
    cases l with
    | nil => rw [pySplitF_nil, pySplitF_nil]
    | cons c cs =>
      simp only [List.length_cons] at hl h1 h2
      obtain ⟨f1p, rfl⟩ : ∃ m, f1 = m + 1 := ⟨f1 - 1, by omega⟩
      obtain ⟨f2p, rfl⟩ : ∃ m, f2 = m + 1 := ⟨f2 - 1, by omega⟩
      simp only [pySplitF]
      have hdw : (cs.dropWhile (fun d => !isWs d)).length ≤ cs.length :=
        (List.dropWhile_sublist _).length_le
      by_cases hc : isWs c
      · rw [if_pos hc, if_pos hc]
        exact ih cs (by omega) f1p f2p (by omega) (by omega)
      · rw [if_neg hc, if_neg hc,
          ih (cs.dropWhile (fun d => !isWs d)) (by omega) f1p f2p (by omega)
          (by omega)]

theorem pySplit_cons (c : Char) (cs : List Char) :
    pySplit (c :: cs) =
      if isWs c then pySplit cs
      else (c :: cs.takeWhile (fun d => !isWs d)) ::
        pySplit (cs.dropWhile (fun d => !isWs d)) := by
  show pySplitF (cs.length + 1) (c :: cs) = _
  have hdw : (cs.dropWhile (fun d => !isWs d)).length ≤ cs.length :=
    (List.dropWhile_sublist _).length_le
  simp only [pySplitF]
  by_cases hc : isWs c
  · simp only [hc, if_true]; rfl
  · simp only [hc, if_false]
    rw [pySplitF_congr (cs.dropWhile (fun d => !isWs d)).length _ le_rfl cs.length
      ((cs.dropWhile (fun d => !isWs d)).length) hdw le_rfl]
    rfl

theorem pySplit_nil : pySplit [] = [] := rfl

theorem pySplit_all_ws : ∀ l : List Char, (∀ c ∈ l, isWs c = true) → pySplit l = [] := by
  intro l
  induction l with
  | nil => intro _; rfl
  | cons c cs ih =>
    intro h
    rw [pySplit_cons, if_pos (h c (by simp))]
    exact ih fun d hd => h d (by simp [hd])

theorem pySplit_ne_nil (c : Char) (cs : List Char) (hc : isWs c = false) :
    pySplit (c :: cs) ≠ [] := by
  rw [pySplit_cons]
  simp [hc]

theorem pySplit_ws_or_ne : ∀ l : List Char,
    (∀ c ∈ l, isWs c = true) ∨ pySplit l ≠ [] := by
  intro l
  induction l with
  | nil => exact Or.inl (by simp)
  | cons c cs ih =>
    by_cases hc : isWs c
    · rcases ih with hall | hne
      · refine Or.inl ?_
        intro d hd
        rcases List.mem_cons.mp hd with h | h
        · rw [h]; exact hc
        · exact hall d h
      · refine Or.inr ?_
        rw [pySplit_cons, if_pos hc]
        exact hne
    · refine Or.inr ?_
      exact pySplit_ne_nil c cs (by simpa using hc)

theorem pySplit_eq_nil_iff (l : List Char) :
    pySplit l = [] ↔ ∀ c ∈ l, isWs c = true := by
  constructor
  · intro h
    rcases pySplit_ws_or_ne l with hall | hne
    · exact hall
    · exact absurd h hne
  · exact pySplit_all_ws l

theorem takeWhile_append_stop {p : Char → Bool} :
    ∀ (l w : List Char), (∀ c ∈ w, p c = false) →
    (l ++ w).takeWhile p = l.takeWhile p := by
  intro l w hw
  induction l with
  | nil =>
    simp only [List.nil_append, List.takeWhile_nil]
    cases w with
    | nil => rfl
    | cons b bs => simp [List.takeWhile_cons, hw b (by simp)]
  | cons a l ih =>
    simp only [List.cons_append, List.takeWhile_cons]
    by_cases ha : p a
    · simp [ha, ih]
    · simp [ha]

theorem dropWhile_append_stop {p : Char → Bool} :
    ∀ (l w : List Char), (∀ c ∈ w, p c = false) →
    (l ++ w).dropWhile p = l.dropWhile p ++ w := by
  intro l w hw
  induction l with
  | nil =>
    simp only [List.nil_append, List.dropWhile_nil]
    cases w with
    | nil => rfl
    | cons b bs => simp [List.dropWhile_cons, hw b (by simp)]
  | cons a l ih =>
    simp only [List.cons_append, List.dropWhile_cons]
    by_cases ha : p a
    · simp [ha, ih]
    · simp [ha]

theorem takeWhile_append_cons_stop {p : Char → Bool} (b : Char)
    (hb : p b = false) :
    ∀ (l rest : List Char), (l ++ b :: rest).takeWhile p = l.takeWhile p := by
  intro l rest
  induction l with
  | nil => simp [List.takeWhile_cons, hb]
  | cons a l ih =>
    simp only [List.cons_append, List.takeWhile_cons]
    by_cases ha : p a
    · simp [ha, ih]
    · simp [ha]

theorem dropWhile_append_cons_stop {p : Char → Bool} (b : Char)
    (hb : p b = false) :
    ∀ (l rest : List Char),
    (l ++ b :: rest).dropWhile p = l.dropWhile p ++ b :: rest := by
  intro l rest
  induction l with
  | nil => simp [List.dropWhile_cons, hb]
  | cons a l ih =>
    simp only [List.cons_append, List.dropWhile_cons]
    by_cases ha : p a
    · simp [ha, ih]
    · simp [ha]

theorem not_ws_space : isWs ' ' = true := by decide

theorem pySplit_word (w : List Char) (hw : w ≠ [])
    (hall : ∀ c ∈ w, isWs c = false) : pySplit w = [w] := by
  cases w with
  | nil => exact absurd rfl hw
  | cons c w =>
    rw [pySplit_cons, if_neg (by simp [hall c (by simp)])]
    have ht : w.takeWhile (fun d => !isWs d) = w := by
      rw [List.takeWhile_eq_self_iff]
      intro d hd
      simp [hall d (by simp [hd])]
    have hd : w.dropWhile (fun d => !isWs d) = [] := by
      rw [List.dropWhile_eq_nil_iff]
      intro d hd
      simp [hall d (by simp [hd])]
    rw [ht, hd, pySplit_nil]

theorem pySplit_word_sep (w rest : List Char) (hw : w ≠ [])
    (hall : ∀ c ∈ w, isWs c = false) :
    pySplit (w ++ ' ' :: rest) = w :: pySplit rest := by
  cases w with
  | nil => exact absurd rfl hw
  | cons c w =>
    rw [List.cons_append, pySplit_cons, if_neg (by simp [hall c (by simp)])]
    have hsp : (fun d => !isWs d) ' ' = false := by decide
    have ht : (w ++ ' ' :: rest).takeWhile (fun d => !isWs d) = w := by
      rw [takeWhile_append_cons_stop ' ' hsp, List.takeWhile_eq_self_iff]
      intro d hd
      simp [hall d (by simp [hd])]
    have hd : (w ++ ' ' :: rest).dropWhile (fun d => !isWs d) = ' ' :: rest := by
      rw [dropWhile_append_cons_stop ' ' hsp, List.dropWhile_eq_nil_iff.mpr, List.nil_append]
      intro d hd
      simp [hall d (by simp [hd])]
    rw [ht, hd, pySplit_cons, if_pos not_ws_space]

theorem pySplit_joinWords : ∀ ws : List (List Char), GoodTokens ws →
    pySplit (joinWords ws) = ws := by
  intro ws
  induction ws with
  | nil => intro _; rfl
  | cons w ws ih =>
    intro h
    have hw := h w (by simp)
    cases ws with
    | nil =>
      show pySplit w = [w]
      exact pySplit_word w hw.1 hw.2
    | cons w2 ws2 =>
      show pySplit (w ++ ' ' :: joinWords (w2 :: ws2)) = w :: w2 :: ws2
      rw [pySplit_word_sep w _ hw.1 hw.2]
      rw [ih fun u hu => h u (by simp [hu])]

theorem goodTokens_pySplit_aux : ∀ (n : Nat) (l : List Char), l.length ≤ n →
    GoodTokens (pySplit l) := by
  intro n
  induction n with
  | zero =>
    intro l hl
    have : l = [] := List.eq_nil_of_length_eq_zero (Nat.le_zero.mp hl)
    subst this
    intro w hw
    simp [pySplit_nil] at hw
  | succ n ih =>
    intro l hl
    cases l with
    | nil =>
      intro w hw
      simp [pySplit_nil] at hw
    | cons c cs =>
      simp only [List.length_cons] at hl
      rw [pySplit_cons]
      by_cases hc : isWs c
      · rw [if_pos hc]
        exact ih cs (by omega)
      · rw [if_neg hc]
        intro w hw
        rcases List.mem_cons.mp hw with hw1 | hw2
        · subst hw1
          refine ⟨by simp, ?_⟩
          intro d hd
          rcases List.mem_cons.mp hd with hd1 | hd2
          · subst hd1
            simpa using hc
          · have := List.mem_takeWhile_imp hd2
            simpa using this
        · have hlen : (cs.dropWhile (fun d => !isWs d)).length ≤ n :=
            le_trans (List.dropWhile_sublist _).length_le (by omega)
          exact ih _ hlen w hw2

theorem goodTokens_pySplit (l : List Char) : GoodTokens (pySplit l) :=
  goodTokens_pySplit_aux l.length l le_rfl

theorem pySplit_dropWhile_ws (l : List Char) :
    pySplit (l.dropWhile isWs) = pySplit l := by
  induction l with
  | nil => rfl
  | cons c cs ih =>
    by_cases hc : isWs c
    · rw [List.dropWhile_cons_of_pos hc, pySplit_cons, if_pos hc, ih]
    · rw [List.dropWhile_cons_of_neg (by simp [hc])]

theorem pySplit_append_ws_aux : ∀ (n : Nat) (l w : List Char), l.length ≤ n →
    (∀ c ∈ w, isWs c = true) → pySplit (l ++ w) = pySplit l := by
  intro n
  induction n with
  | zero =>
    intro l w hl hall
    have : l = [] := List.eq_nil_of_length_eq_zero (Nat.le_zero.mp hl)
    subst this
    rw [List.nil_append, pySplit_nil]
    exact pySplit_all_ws w hall
  | succ n ih =>
    intro l w hl hall
    cases l with
    | nil =>
      rw [List.nil_append, pySplit_nil]
      exact pySplit_all_ws w hall
    | cons c cs =>
      simp only [List.length_cons] at hl
      have hwf : ∀ d ∈ w, (fun d => !isWs d) d = false := by
        intro d hd
        simp [hall d hd]
      rw [List.cons_append, pySplit_cons, pySplit_cons]
      by_cases hc : isWs c
      · rw [if_pos hc, if_pos hc]
        exact ih cs w (by omega) hall
      · rw [if_neg hc, if_neg hc, takeWhile_append_stop cs w hwf,
          dropWhile_append_stop cs w hwf]
        have hlen : (cs.dropWhile (fun d => !isWs d)).length ≤ n :=
          le_trans (List.dropWhile_sublist _).length_le (by omega)
        rw [ih _ w hlen hall]

theorem pySplit_append_ws (l w : List Char) (hall : ∀ c ∈ w, isWs c = true) :
    pySplit (l ++ w) = pySplit l :=
  pySplit_append_ws_aux l.length l w le_rfl hall

theorem dropWhile_ws_eq_strip_append (l : List Char) :
    ∃ w, l.dropWhile isWs = pyStrip l ++ w ∧ ∀ c ∈ w, isWs c = true := by
  refine ⟨((l.dropWhile isWs).reverse.takeWhile isWs).reverse, ?_, ?_⟩
  · conv_lhs => rw [← List.reverse_reverse (l.dropWhile isWs),
      ← List.takeWhile_append_dropWhile isWs (l.dropWhile isWs).reverse,
      List.reverse_append]
    rfl
  · intro c hc
    exact List.mem_takeWhile_imp (List.mem_reverse.mp hc)

theorem pySplit_pyStrip (l : List Char) : pySplit (pyStrip l) = pySplit l := by
  obtain ⟨w, hw, hall⟩ := dropWhile_ws_eq_strip_append l
  calc pySplit (pyStrip l) = pySplit (pyStrip l ++ w) :=
        (pySplit_append_ws (pyStrip l) w hall).symm
    _ = pySplit (l.dropWhile isWs) := by rw [hw]
    _ = pySplit l := pySplit_dropWhile_ws l

theorem count_words_pyStrip (l : List Char) :
    count_words (pyStrip l) = count_words l := by
  by_cases h1 : pyStrip l = []
  · by_cases h2 : l = []
    · rw [h1, h2]
    · rw [h1]
      show 0 = count_words l
      rw [count_words, if_neg h2]
      have : pySplit l = [] := by
        rw [← pySplit_pyStrip l, h1, pySplit_nil]
      simp [this]
  · by_cases h2 : l = []
    · rw [h2] at h1
      exact absurd rfl h1
    · rw [count_words, count_words, if_neg h1, if_neg h2, pySplit_pyStrip]

theorem pyStrip_eq_self (l : List Char)
    (h1 : ∀ c, l.head? = some c → isWs c = false)
    (h2 : ∀ c, l.getLast? = some c → isWs c = false) : pyStrip l = l := by
  cases l with
  | nil => rfl
  | cons a as =>
    have ha : isWs a = false := h1 a rfl
    show ((((a :: as).dropWhile isWs).reverse.dropWhile isWs)).reverse = a :: as
    rw [List.dropWhile_cons_of_neg (by simp [ha])]
    cases hrev : (a :: as).reverse with
    | nil => exact absurd (List.reverse_eq_nil_iff.mp hrev) (by simp)
    | cons b bs =>
      have hb : (a :: as).getLast? = some b := by
        rw [← List.head?_reverse, hrev]
        rfl
      rw [List.dropWhile_cons_of_neg (by simp [h2 b hb]), ← hrev,
        List.reverse_reverse]

theorem joinWords_cons_eq (w : List Char) (ws : List (List Char)) :
    joinWords (w :: ws) = w ++ (if ws.isEmpty then [] else ' ' :: joinWords ws) := by
  cases ws with
  | nil => simp [joinWords]
  | cons b bs => rfl

theorem joinWords_head? (w : List Char) (ws : List (List Char)) (hw : w ≠ []) :
    (joinWords (w :: ws)).head? = w.head? := by
  rw [joinWords_cons_eq]
  cases w with
  | nil => exact absurd rfl hw
  | cons c cw => rfl

theorem joinWords_ne_nil (w : List Char) (ws : List (List Char)) (hw : w ≠ []) :
    joinWords (w :: ws) ≠ [] := by
  rw [joinWords_cons_eq]
  cases w with
  | nil => exact absurd rfl hw
  | cons c cw => simp

theorem joinWords_getLast? : ∀ (ws : List (List Char)), GoodTokens ws →
    ws ≠ [] → ∃ c, (joinWords ws).getLast? = some c ∧ isWs c = false := by
  intro ws
  induction ws with
  | nil => intro _ h; exact absurd rfl h
  | cons w ws ih =>
    intro hgood _
    have hw := hgood w (by simp)
    cases ws with
    | nil =>
      refine ⟨w.getLast hw.1, ?_, hw.2 _ (List.getLast_mem hw.1)⟩
      show w.getLast? = _
      exact List.getLast?_eq_getLast w hw.1
    | cons b bs =>
      obtain ⟨c, hc, hcws⟩ := ih (fun u hu => hgood u (by simp [hu])) (by simp)
      refine ⟨c, ?_, hcws⟩
      show (w ++ ' ' :: joinWords (b :: bs)).getLast? = some c
      rw [List.getLast?_append_of_ne_nil w (by simp),
        show (' ' :: joinWords (b :: bs)) = [' '] ++ joinWords (b :: bs) from rfl,
        List.getLast?_append_of_ne_nil [' ']
          (joinWords_ne_nil b bs (hgood b (by simp)).1), hc]

theorem pyStrip_joinWords (ws : List (List Char)) (hgood : GoodTokens ws) :
    pyStrip (joinWords ws) = joinWords ws := by
  cases ws with
  | nil => rfl
  | cons w ws =>
    have hw := hgood w (by simp)
    refine pyStrip_eq_self _ ?_ ?_
    · intro c hc
      rw [joinWords_head? w ws hw.1] at hc
      exact hw.2 c (List.mem_of_mem_head? hc)
    · intro c hc
      obtain ⟨d, hd, hdws⟩ := joinWords_getLast? (w :: ws) hgood (by simp)
      rw [hd] at hc
      cases hc
      exact hdws

theorem count_words_joinWords (ws : List (List Char)) (hgood : GoodTokens ws) :
    count_words (joinWords ws) = ws.length := by
  cases ws with
  | nil => rfl
  | cons w ws =>
    rw [count_words, if_neg (joinWords_ne_nil w ws (hgood w (by simp)).1),
      pySplit_joinWords _ hgood]

/-! ## The adherence band in integer form -/

theorem adherent_iff (wc t : Nat) (ht : 0 < t) :
    (check_word_count_adherence wc t (1 / 2)).1 = true ↔
      t ≤ 2 * wc ∧ 2 * wc ≤ 3 * t := by
  rw [check_word_count_adherence, if_neg (Nat.pos_iff_ne_zero.mp ht)]
  simp only [decide_eq_true_eq]
  constructor
  · rintro ⟨hlo, hhi⟩
    constructor
    · have h2 : (t : ℚ) ≤ 2 * wc := by linarith
      exact_mod_cast h2
    · have h3 : ((2 * wc : Nat) : ℚ) ≤ 3 * t := by push_cast; linarith
      exact_mod_cast h3
  · rintro ⟨h1, h2⟩
    have h1q : (t : ℚ) ≤ 2 * wc := by exact_mod_cast h1
    have h2q : ((2 * wc : Nat) : ℚ) ≤ ((3 * t : Nat) : ℚ) := by exact_mod_cast h2
    push_cast at h2q
    constructor
    · linarith
    · linarith

theorem check_adherence_zero (wc : Nat) (tol : ℚ) :
    check_word_count_adherence wc 0 tol = (wc == 0, 0) := by
  rw [check_word_count_adherence, if_pos rfl]

theorem generate_entry_tail_eq (tok : List Char → List (List Char))
    (raw : List Char) (t : Nat) (ht : 0 < t) :
    (2 * count_words (clean_generated_text raw) ≤ 3 * t →
      generate_entry_tail tok raw t = clean_generated_text raw) ∧
    (3 * t < 2 * count_words (clean_generated_text raw) →
      generate_entry_tail tok raw t =
        smart_truncate_text tok (clean_generated_text raw) t (t / 10)) := by
  simp only [generate_entry_tail]
  constructor
  · intro hband
    by_cases hadh : (check_word_count_adherence
        (count_words (clean_generated_text raw)) t (1 / 2)).1 = true
    · rw [if_pos hadh]
    · rw [if_neg hadh]
      have hnot := (not_iff_not.mpr
        (adherent_iff (count_words (clean_generated_text raw)) t ht)).mp hadh
      have hlt : count_words (clean_generated_text raw) < t := by
        by_contra hge
        exact hnot ⟨by omega, hband⟩
      rw [if_neg (by omega)]
  · intro hover
    have hadh : ¬ (check_word_count_adherence
        (count_words (clean_generated_text raw)) t (1 / 2)).1 = true := by
      rw [adherent_iff (count_words (clean_generated_text raw)) t ht]
      omega
    rw [if_neg hadh, if_pos (by omega : t < count_words (clean_generated_text raw))]

theorem head_dropWhile_ws : ∀ (l : List Char) (c : Char),
    (l.dropWhile isWs).head? = some c → isWs c = false := by
  intro l
  induction l with
  | nil => intro c h; simp at h
  | cons a as ih =>
    intro c h
    by_cases ha : isWs a
    · rw [List.dropWhile_cons_of_pos ha] at h
      exact ih c h
    · rw [List.dropWhile_cons_of_neg (by simp [ha])] at h
      cases h
      simpa using ha

theorem pyStrip_eq_nil_of_count (l : List Char)
    (h : count_words (pyStrip l) = 0) : pyStrip l = [] := by
  cases hs : pyStrip l with
  | nil => rfl
  | cons c cs =>
    rw [count_words, hs, if_neg (by simp)] at h
    have hnil : pySplit (c :: cs) = [] := List.length_eq_zero.mp (by rw [← hs] at h ⊢; exact h)
    have hall := (pySplit_eq_nil_iff (c :: cs)).mp hnil
    obtain ⟨w, hw, _⟩ := dropWhile_ws_eq_strip_append l
    rw [hs] at hw
    have hc : isWs c = false := by
      refine head_dropWhile_ws l c ?_
      rw [hw]
      rfl
    rw [hall c (by simp)] at hc
    cases hc

theorem floor_tenth (t : Nat) : (Nat.floor ((t : ℚ) * 0.10)) = t / 10 := by
  have h : (t : ℚ) * 0.10 = ((t : Nat) : ℚ) / ((10 : Nat) : ℚ) := by
    rw [show ((0.10 : ℚ)) = 1 / 10 by norm_num]
    push_cast
    ring
  rw [h, Nat.floor_div_nat, Nat.floor_natCast]

theorem floor_three_halves (t : Nat) : (Nat.floor ((t : ℚ) * 1.5)) = 3 * t / 2 := by
  have h : (t : ℚ) * 1.5 = ((3 * t : Nat) : ℚ) / ((2 : Nat) : ℚ) := by
    rw [show ((1.5 : ℚ)) = 3 / 2 by norm_num]
    push_cast
    ring
  rw [h, Nat.floor_div_nat, Nat.floor_natCast]

/-- Claim C4: for target_word_count > 0 the adherence check reports adherent
iff target * (1 - 0.5) <= text_word_count <= target * (1 + 0.5), both bounds
inclusive, and reports signed deviation (actual - target) / target; for
target_word_count == 0 it reports adherent iff text_word_count == 0, with
deviation 0 regardless of the actual count. -/
theorem c4_check_adherence (wc t : Nat) :
    (0 < t →
      ((check_word_count_adherence wc t (1 / 2)).1 = true ↔
        (t : ℚ) * (1 - 0.5) ≤ (wc : ℚ) ∧ (wc : ℚ) ≤ (t : ℚ) * (1 + 0.5)) ∧
      (check_word_count_adherence wc t (1 / 2)).2 = ((wc : ℚ) - t) / t) ∧
    (t = 0 →
      ((check_word_count_adherence wc t (1 / 2)).1 = true ↔ wc = 0) ∧
      (check_word_count_adherence wc t (1 / 2)).2 = 0) := by
  constructor
  · intro ht
    have hhalf : ((0.5 : ℚ)) = 1 / 2 := by norm_num
    constructor
    · rw [check_word_count_adherence, if_neg (Nat.pos_iff_ne_zero.mp ht)]
      simp only [decide_eq_true_eq]
      rw [hhalf]
    · rw [check_word_count_adherence, if_neg (Nat.pos_iff_ne_zero.mp ht)]
  · intro ht
    subst ht
    rw [check_adherence_zero]
    constructor
    · simp
    · rfl

theorem c4_check_adherence_witness :
    (0 < 100 ∧
      (((check_word_count_adherence 90 100 (1 / 2)).1 = true ↔
        (100 : ℚ) * (1 - 0.5) ≤ (90 : ℚ) ∧ (90 : ℚ) ≤ (100 : ℚ) * (1 + 0.5)) ∧
      (check_word_count_adherence 90 100 (1 / 2)).2 = ((90 : ℚ) - 100) / 100)) ∧
    (((check_word_count_adherence 90 0 (1 / 2)).1 = true ↔ (90 : Nat) = 0) ∧
      (check_word_count_adherence 90 0 (1 / 2)).2 = 0) :=
  ⟨⟨by decide, (c4_check_adherence 90 100).1 (by decide)⟩,
    (c4_check_adherence 90 0).2 rfl⟩

/-- Claim C5: with no token-budget override (override 0) the generation
invoker computes max_output_tokens = max(50, floor(target_word_count * 1.5)
+ 30) exactly; a positive override is used verbatim. -/
theorem c5_max_output_tokens (t mnt : Nat) (_ht : 0 < t) :
    (mnt = 0 → calculated_max_output_tokens t mnt =
      max 50 (Nat.floor ((t : ℚ) * 1.5) + 30)) ∧
    (0 < mnt → calculated_max_output_tokens t mnt = mnt) := by
  constructor
  · intro h
    subst h
    rw [calculated_max_output_tokens, if_pos rfl, floor_three_halves]
  · intro h
    rw [calculated_max_output_tokens, if_neg (Nat.pos_iff_ne_zero.mp h)]

theorem c5_max_output_tokens_witness :
    (0 < 60 ∧ ((0 : Nat) = 0 → calculated_max_output_tokens 60 0 =
        max 50 (Nat.floor ((60 : ℚ) * 1.5) + 30)) ∧
      (0 < (0 : Nat) → calculated_max_output_tokens 60 0 = 0)) ∧
    (0 < (120 : Nat) ∧ calculated_max_output_tokens 60 120 = 120) :=
  ⟨⟨by decide, c5_max_output_tokens 60 0 (by decide)⟩,
    ⟨by decide, (c5_max_output_tokens 60 120 (by decide)).2 (by decide)⟩⟩

/-- Claim C3: smart_truncate_text returns the text unchanged when its
linguistic-token count is at most target_word_count + max_overshoot_words,
and otherwise returns exactly the first target_word_count linguistic tokens
joined with single spaces (stated for tokenizers that produce non-empty,
whitespace-free tokens, as the nltk word tokenizer does). -/
theorem c3_smart_truncate (tok : List Char → List (List Char))
    (text : List Char) (t m : Nat) (hgood : GoodTokens (tok text)) :
    ((tok text).length ≤ t + m → smart_truncate_text tok text t m = text) ∧
    (t + m < (tok text).length →
      smart_truncate_text tok text t m = joinWords ((tok text).take t)) := by
  constructor
  · intro h
    simp only [smart_truncate_text]
    rw [if_pos h]
  · intro h
    simp only [smart_truncate_text]
    rw [if_neg (by omega)]
    exact pyStrip_joinWords _ fun w hw => hgood w (List.mem_of_mem_take hw)

theorem c3_smart_truncate_witness :
    (GoodTokens (pySplit "alpha beta gamma delta".data) ∧
      ((pySplit "alpha beta gamma delta".data).length ≤ 2 + 1 →
        smart_truncate_text pySplit "alpha beta gamma delta".data 2 1 =
          "alpha beta gamma delta".data) ∧
      (2 + 1 < (pySplit "alpha beta gamma delta".data).length →
        smart_truncate_text pySplit "alpha beta gamma delta".data 2 1 =
          joinWords ((pySplit "alpha beta gamma delta".data).take 2))) :=
  ⟨goodTokens_pySplit _,
    c3_smart_truncate pySplit "alpha beta gamma delta".data 2 1
      (goodTokens_pySplit _)⟩

/-- Claim C1: for target_word_count > 0 the post-processing tail of
generate_entry returns the trimmed text unchanged whenever its simple-split
word count is at most 1.5 * target (equivalently 2 * count <= 3 * target),
invokes truncation exactly when the count strictly exceeds 1.5 * target,
passing max_overshoot_words = floor(target_word_count * 0.10), never
truncates undershoot, and never lengthens the text (measured in
simple-split words, for tokenizers producing non-empty whitespace-free
tokens). -/
theorem c1_adherence_tail (tok : List Char → List (List Char))
    (raw : List Char) (t : Nat) (ht : 0 < t)
    (hgood : GoodTokens (tok (clean_generated_text raw))) :
    (2 * count_words (clean_generated_text raw) ≤ 3 * t →
      generate_entry_tail tok raw t = clean_generated_text raw) ∧
    (3 * t < 2 * count_words (clean_generated_text raw) →
      generate_entry_tail tok raw t =
        smart_truncate_text tok (clean_generated_text raw) t
          (Nat.floor ((t : ℚ) * 0.10))) ∧
    (count_words (clean_generated_text raw) < t →
      generate_entry_tail tok raw t = clean_generated_text raw) ∧
    count_words (generate_entry_tail tok raw t) ≤ count_words raw := by
  have hcnt : count_words (clean_generated_text raw) = count_words raw := by
    simp only [clean_generated_text]
    exact count_words_pyStrip raw
  refine ⟨(generate_entry_tail_eq tok raw t ht).1, ?_, ?_, ?_⟩
  · intro h
    rw [floor_tenth]
    exact (generate_entry_tail_eq tok raw t ht).2 h
  · intro h
    exact (generate_entry_tail_eq tok raw t ht).1 (by omega)
  · rcases le_or_lt (2 * count_words (clean_generated_text raw)) (3 * t) with hb | hb
    · rw [(generate_entry_tail_eq tok raw t ht).1 hb, hcnt]
    · rw [(generate_entry_tail_eq tok raw t ht).2 hb]
      simp only [smart_truncate_text]
      by_cases htr : (tok (clean_generated_text raw)).length ≤ t + t / 10
      · rw [if_pos htr, hcnt]
      · rw [if_neg htr]
        have hgt : GoodTokens ((tok (clean_generated_text raw)).take t) :=
          fun w hw => hgood w (List.mem_of_mem_take hw)
        have hjoin : count_words
            (pyStrip (joinWords ((tok (clean_generated_text raw)).take t))) =
            ((tok (clean_generated_text raw)).take t).length := by
          rw [count_words_pyStrip, count_words_joinWords _ hgt]
        rw [hjoin, List.length_take]
        have hmin : min t (tok (clean_generated_text raw)).length ≤ t :=
          Nat.min_le_left _ _
        omega

theorem c1_adherence_tail_witness :
    (0 < 2 ∧ GoodTokens (pySplit (clean_generated_text
        " one two three four five six ".data)) ∧
      ((2 * count_words (clean_generated_text
          " one two three four five six ".data) ≤ 3 * 2 →
        generate_entry_tail pySplit " one two three four five six ".data 2 =
          clean_generated_text " one two three four five six ".data) ∧
      (3 * 2 < 2 * count_words (clean_generated_text
          " one two three four five six ".data) →
        generate_entry_tail pySplit " one two three four five six ".data 2 =
          smart_truncate_text pySplit
            (clean_generated_text " one two three four five six ".data) 2
            (Nat.floor ((2 : ℚ) * 0.10))) ∧
      (count_words (clean_generated_text
          " one two three four five six ".data) < 2 →
        generate_entry_tail pySplit " one two three four five six ".data 2 =
          clean_generated_text " one two three four five six ".data) ∧
      count_words (generate_entry_tail pySplit
          " one two three four five six ".data 2) ≤
        count_words " one two three four five six ".data)) :=
  ⟨by decide, goodTokens_pySplit _,
    c1_adherence_tail pySplit " one two three four five six ".data 2
      (by decide) (goodTokens_pySplit _)⟩

/-- Claim C2: for target > 0, when the simple-split word count of the
cleaned text strictly exceeds 1.5 * target the adherence engine produces a
text whose linguistic-token count is at most target + floor(target * 0.10);
when the count is within the band or below target the cleaned text is handed
on unmodified (stated for tokenizers that produce non-empty whitespace-free
tokens and re-split a space-joined token list to itself, as a linguistic
tokenizer does on its own output). -/
theorem c2_truncation_invariant (tok : List Char → List (List Char))
    (raw : List Char) (t : Nat) (ht : 0 < t)
    (hgood : GoodTokens (tok (clean_generated_text raw)))
    (hfaith : FaithfulTok tok) :
    (3 * t < 2 * count_words (clean_generated_text raw) →
      (tok (generate_entry_tail tok raw t)).length ≤
        t + Nat.floor ((t : ℚ) * 0.10)) ∧
    (2 * count_words (clean_generated_text raw) ≤ 3 * t →
      generate_entry_tail tok raw t = clean_generated_text raw) := by
  rw [floor_tenth]
  refine ⟨?_, (generate_entry_tail_eq tok raw t ht).1⟩
  intro h
  rw [(generate_entry_tail_eq tok raw t ht).2 h]
  simp only [smart_truncate_text]
  by_cases htr : (tok (clean_generated_text raw)).length ≤ t + t / 10
  · rw [if_pos htr]
    exact htr
  · rw [if_neg htr]
    have hgt : GoodTokens ((tok (clean_generated_text raw)).take t) :=
      fun w hw => hgood w (List.mem_of_mem_take hw)
    rw [pyStrip_joinWords _ hgt, hfaith _ hgt, List.length_take]
    have := Nat.min_le_left t (tok (clean_generated_text raw)).length
    omega

theorem c2_truncation_invariant_witness :
    (0 < 2 ∧ GoodTokens (pySplit (clean_generated_text
        "one two three four five six seven".data)) ∧ FaithfulTok pySplit ∧
      ((3 * 2 < 2 * count_words (clean_generated_text
          "one two three four five six seven".data) →
        (pySplit (generate_entry_tail pySplit
            "one two three four five six seven".data 2)).length ≤
          2 + Nat.floor ((2 : ℚ) * 0.10)) ∧
      (2 * count_words (clean_generated_text
          "one two three four five six seven".data) ≤ 3 * 2 →
        generate_entry_tail pySplit "one two three four five six seven".data 2 =
          clean_generated_text "one two three four five six seven".data))) :=
  ⟨by decide, goodTokens_pySplit _, pySplit_joinWords,
    c2_truncation_invariant pySplit "one two three four five six seven".data 2
      (by decide) (goodTokens_pySplit _) pySplit_joinWords⟩

/-- Claim C10: with target_word_count = 0 the adherence engine returns the
empty string on every input: whitespace-only input is trimmed to empty and
returned unchanged, and input with at least one word is judged non-adherent
and truncated to the first 0 linguistic tokens with overshoot allowance
floor(0 * 0.10) = 0 (stated for tokenizers returning at least one token on
text with at least one simple-split word). -/
theorem c10_target_zero (tok : List Char → List (List Char))
    (raw : List Char)
    (htok : 1 ≤ count_words (clean_generated_text raw) →
      tok (clean_generated_text raw) ≠ []) :
    generate_entry_tail tok raw 0 = [] := by
  simp only [generate_entry_tail, check_adherence_zero]
  by_cases hn : count_words (clean_generated_text raw) = 0
  · rw [if_pos (by simp [hn])]
    simp only [clean_generated_text] at hn ⊢
    exact pyStrip_eq_nil_of_count raw hn
  · rw [if_neg (by simp [hn]), if_pos (by omega)]
    have htok2 : tok (clean_generated_text raw) ≠ [] := htok (by omega)
    simp only [smart_truncate_text]
    rw [if_neg (by
      simp only [Nat.zero_div, Nat.add_zero]
      intro hle
      exact htok2 (List.length_eq_zero.mp (Nat.le_zero.mp hle)))]
    rfl

theorem c10_target_zero_witness :
    ((1 ≤ count_words (clean_generated_text "  hello  world  ".data) →
      pySplit (clean_generated_text "  hello  world  ".data) ≠ []) ∧
      generate_entry_tail pySplit "  hello  world  ".data 0 = []) ∧
    ((1 ≤ count_words (clean_generated_text "   ".data) →
      pySplit (clean_generated_text "   ".data) ≠ []) ∧
      generate_entry_tail pySplit "   ".data 0 = []) :=
  ⟨⟨by decide, c10_target_zero pySplit "  hello  world  ".data (by decide)⟩,
    ⟨by decide, c10_target_zero pySplit "   ".data (by decide)⟩⟩

/-- Claim C6: get_examples_for_prompt returns the empty list with no side
effects when the requested count is non-positive, and when the tag resolves
to a boolean column with m > 0 matching rows and the requested count exceeds
m it returns exactly those m matching entries, in source order, again with
the DataFrame unchanged. -/
theorem c6_get_examples (sample : List String → Nat → List String)
    (df : DataFrame) (tag : String) (count : Int) :
    (count ≤ 0 → get_examples_for_prompt sample df tag count = ([], df)) ∧
    (∀ vs : List Bool,
      df.emoCols.lookup (emotion_column_name tag) =
        some (ColData.bools vs) →
      matchesBool df.answers vs ≠ [] →
      ((matchesBool df.answers vs).length : Int) < count →
      get_examples_for_prompt sample df tag count =
        (matchesBool df.answers vs, df)) := by
  constructor
  · intro h
    rw [get_examples_for_prompt, if_pos h]
  · intro vs hvs hne hlt
    have h0 : (0 : Int) ≤ ((matchesBool df.answers vs).length : Int) :=
      Int.natCast_nonneg _
    rw [get_examples_for_prompt, if_neg (by omega)]
    simp only [hvs]
    rw [if_neg hne, if_pos hlt]

theorem c6_get_examples_witness :
    (((-1 : Int) ≤ 0 ∧ get_examples_for_prompt (fun l _ => l)
        (DataFrame.mk ["x", "y", "z"]
          [("Answer.f1.happy.raw", ColData.bools [true, false, true])])
        "Happy" (-1) =
      ([], DataFrame.mk ["x", "y", "z"]
        [("Answer.f1.happy.raw", ColData.bools [true, false, true])])) ∧
    ((DataFrame.mk ["x", "y", "z"]
        [("Answer.f1.happy.raw",
          ColData.bools [true, false, true])]).emoCols.lookup
        (emotion_column_name "Happy") =
        some (ColData.bools [true, false, true]) ∧
      matchesBool ["x", "y", "z"] [true, false, true] ≠ [] ∧
      ((matchesBool ["x", "y", "z"] [true, false, true]).length : Int) < 5 ∧
      get_examples_for_prompt (fun l _ => l)
        (DataFrame.mk ["x", "y", "z"]
          [("Answer.f1.happy.raw", ColData.bools [true, false, true])])
        "Happy" 5 =
      (matchesBool ["x", "y", "z"] [true, false, true],
        DataFrame.mk ["x", "y", "z"]
          [("Answer.f1.happy.raw", ColData.bools [true, false, true])]))) :=
  ⟨⟨by decide, (c6_get_examples (fun l _ => l)
      (DataFrame.mk ["x", "y", "z"]
        [("Answer.f1.happy.raw", ColData.bools [true, false, true])])
      "Happy" (-1)).1 (by decide)⟩,
    by decide, by decide, by decide,
    (c6_get_examples (fun l _ => l)
      (DataFrame.mk ["x", "y", "z"]
        [("Answer.f1.happy.raw", ColData.bools [true, false, true])])
      "Happy" 5).2 [true, false, true] (by decide) (by decide) (by decide)⟩

/-- Claim C9, counterexample: when the emotion column has numeric dtype,
get_examples_for_prompt coerces it to boolean in place (data_loader.py line
113), so the DataFrame is not left unchanged by every call. -/
theorem c9_counterexample :
    (get_examples_for_prompt (fun l _ => l)
      (DataFrame.mk ["x"] [("Answer.f1.happy.raw", ColData.nums [1])])
      "happy" 1).2 ≠
    DataFrame.mk ["x"] [("Answer.f1.happy.raw", ColData.nums [1])] := by
  decide

/-- Claim C9, amended: a call to get_examples_for_prompt leaves the
DataFrame unchanged whenever the target emotion column is not numeric-typed
(absent, boolean, or object dtype) — in particular on every DataFrame
produced by load_and_preprocess_data, whose emotion columns are boolean. -/
theorem c9_no_mutation (sample : List String → Nat → List String)
    (df : DataFrame) (tag : String) (count : Int)
    (h : isNumericCol (df.emoCols.lookup (emotion_column_name tag)) = false) :
    (get_examples_for_prompt sample df tag count).2 = df := by
  rw [get_examples_for_prompt]
  by_cases hc : count ≤ 0
  · rw [if_pos hc]
  · rw [if_neg hc]
    cases hl : df.emoCols.lookup (emotion_column_name tag) with
    | none => simp only [hl]
    | some cd =>
      cases cd with
      | bools vs =>
        simp only [hl]
        split
        · rfl
        · split
          · rfl
          · rfl
      | nums vs =>
        rw [hl] at h
        simp [isNumericCol] at h
      | objs vs => simp only [hl]

theorem c9_no_mutation_witness :
    (isNumericCol ((DataFrame.mk ["x", "y"]
        [("Answer.f1.happy.raw", ColData.bools [true, true])]).emoCols.lookup
        (emotion_column_name "happy")) = false ∧
      (get_examples_for_prompt (fun l _ => l)
        (DataFrame.mk ["x", "y"]
          [("Answer.f1.happy.raw", ColData.bools [true, true])])
        "happy" 1).2 =
      DataFrame.mk ["x", "y"]
        [("Answer.f1.happy.raw", ColData.bools [true, true])]) :=
  ⟨by decide, c9_no_mutation (fun l _ => l)
    (DataFrame.mk ["x", "y"]
      [("Answer.f1.happy.raw", ColData.bools [true, true])])
    "happy" 1 (by decide)⟩

theorem generate_entry_tail_nil (tok : List Char → List (List Char)) (t : Nat) :
    generate_entry_tail tok [] t = [] := by
  have hclean : clean_generated_text ([] : List Char) = [] := rfl
  have hcount : count_words ([] : List Char) = 0 := rfl
  simp only [generate_entry_tail, hclean, hcount]
  by_cases ht : t = 0
  · subst ht
    rw [check_adherence_zero]
    simp
  · rw [if_neg (by
        rw [adherent_iff 0 t (Nat.pos_of_ne_zero ht)]
        omega),
      if_neg (by omega)]

theorem extract_spec_of_ne (r : GeminiResponse) (h : responseText r ≠ "") :
    extract_spec r = some (responseText r) := by
  rw [extract_spec, if_pos h]

theorem extract_spec_of_eq (r : GeminiResponse) (h : responseText r = "") :
    extract_spec r = none := by
  have hmatch : strConcat (match r.candidates with
      | [] => [] | c :: _ => c) = responseText r := rfl
  rw [extract_spec, if_neg (by simp [h]), if_neg (by simp [hmatch, h])]

theorem extract_code_of_ne (r : GeminiResponse) (h : responseText r ≠ "") :
    extract_generated_text r = some (responseText r) := by
  have hparts : (responseParts r).isEmpty = false := by
    cases hp : responseParts r with
    | nil =>
      rw [responseText, hp] at h
      exact absurd rfl h
    | cons a as => rfl
  rw [extract_generated_text, if_pos hparts]

theorem extract_code_of_eq (r : GeminiResponse) (h : responseText r = "") :
    extract_generated_text r = none ∨ extract_generated_text r = some "" := by
  rw [extract_generated_text]
  by_cases hparts : (responseParts r).isEmpty = false
  · rw [if_pos hparts, h]
    exact Or.inr rfl
  · rw [if_neg hparts]
    cases hc : r.candidates with
    | nil => exact Or.inl rfl
    | cons c cs =>
      have hcp : responseParts r = c := by rw [responseParts, hc]
      have hce : c.isEmpty = true := by
        rw [← hcp]
        cases hx : (responseParts r).isEmpty
        · exact absurd hx hparts
        · rfl
      simp only []
      rw [if_neg (by simp [hce])]
      exact Or.inl rfl

/-- Claim C7: the generation invoker extracts text by the precedence
(a) direct combined-text field if present and non-empty, (b) else the
concatenation of the first candidate content parts if present and
non-empty, (c) else failure; and a service exception is caught and turned
into the empty-string failure sentinel instead of propagating. -/
theorem c7_extraction_precedence (tok : List Char → List (List Char)) (t : Nat) :
    (∀ e : String, generate_entry_result tok (Except.error e) t = []) ∧
    (∀ call : Except String GeminiResponse,
      generate_entry_result tok call t = generate_entry_spec tok call t) := by
  refine ⟨fun e => rfl, fun call => ?_⟩
  cases call with
  | error e => rfl
  | ok r =>
    simp only [generate_entry_result, generate_entry_spec]
    by_cases htext : responseText r = ""
    · rw [extract_spec_of_eq r htext]
      rcases extract_code_of_eq r htext with hcode | hcode
      · rw [hcode]
      · rw [hcode]
        exact generate_entry_tail_nil tok t
    · rw [extract_spec_of_ne r htext, extract_code_of_ne r htext]

/-! ## Prompt composition: ordered example labels -/

theorem strConcat_append (l1 l2 : List String) :
    strConcat (l1 ++ l2) = strConcat l1 ++ strConcat l2 := by
  induction l1 with
  | nil => simp [strConcat]
  | cons s ss ih => simp [strConcat, ih, String.append_assoc]

theorem pyJoin_cons_concat (sep x : String) (xs : List String) :
    pyJoin sep (x :: xs) = x ++ strConcat (xs.map fun y => sep ++ y) := by
  induction xs generalizing x with
  | nil => simp [pyJoin, strConcat]
  | cons y ys ih =>
    show x ++ sep ++ pyJoin sep (y :: ys) = _
    rw [ih y]
    simp [strConcat, String.append_assoc]

theorem cio_prepend (ps : List (List Char)) (l0 l : List Char)
    (h : ContainsInOrder ps l) : ContainsInOrder ps (l0 ++ l) := by
  cases ps with
  | nil => trivial
  | cons p ps =>
    obtain ⟨l1, l2, heq, hrest⟩ := h
    exact ⟨l0 ++ l1, l2, by rw [heq]; simp, hrest⟩

theorem cio_exparts : ∀ (es : List String) (k : Nat) (tail : List Char),
    ContainsInOrder (labelsFrom k es)
      ((strConcat ((es.enumFrom k).map
        fun p => " " ++ examplePart p.1 p.2)).data ++ tail) := by
  intro es
  induction es with
  | nil =>
    intro k tail
    trivial
  | cons ex es ih =>
    intro k tail
    show ContainsInOrder (("Example " ++ natRepr (k + 1)).data :: labelsFrom (k + 1) es) _
    refine ⟨[' ', '\n'],
      (": " ++ String.mk [dqc] ++ neutralize_example ex ++ String.mk [dqc]).data ++
        ((strConcat ((es.enumFrom (k + 1)).map
          fun p => " " ++ examplePart p.1 p.2)).data ++ tail), ?_, ?_⟩
    · show (strConcat ((" " ++ examplePart k ex) ::
        (es.enumFrom (k + 1)).map fun p => " " ++ examplePart p.1 p.2)).data ++ tail = _
      simp only [strConcat, examplePart, String.data_append]
      simp [String.data_append, List.append_assoc]
    · exact cio_prepend _ _ _ (ih (k + 1) tail)

theorem cio_prompt (tag : String) (n : Nat) (es : List String) (hne : es ≠ []) :
    ContainsInOrder (labelsFrom 0 es) (construct_prompt_text tag n es).data := by
  have henum : es.enum = es.enumFrom 0 := rfl
  simp only [construct_prompt_text]
  rw [if_neg (by simp [List.isEmpty_iff, hne])]
  rw [show [promptP1pre ++ tag ++ ".",
      promptP2pre ++ natRepr n ++ promptP2post, promptP3] ++ [promptExHeader] ++
      (es.enum.map fun p => examplePart p.1 p.2) ++ [promptCloseWithEx] =
    (promptP1pre ++ tag ++ ".") ::
      (promptP2pre ++ natRepr n ++ promptP2post) :: promptP3 :: promptExHeader ::
      ((es.enum.map fun p => examplePart p.1 p.2) ++ [promptCloseWithEx]) by simp]
  rw [pyJoin_cons_concat]
  simp only [List.map_cons, List.map_append, List.map_map, strConcat,
    strConcat_append, henum]
  simp only [Function.comp_def]
  simp only [String.data_append, List.append_assoc]
  refine cio_prepend _ _ _ ?_
  refine cio_prepend _ _ _ ?_
  refine cio_prepend _ _ _ ?_
  refine cio_prepend _ _ _ ?_
  refine cio_prepend _ _ _ ?_
  refine cio_prepend _ _ _ ?_
  refine cio_prepend _ _ _ ?_
  refine cio_prepend _ _ _ ?_
  refine cio_prepend _ _ _ ?_
  refine cio_prepend _ _ _ ?_
  refine cio_prepend _ _ _ ?_
  exact cio_exparts es 0 _

/-! ## Prompt composition: absence of labels in the no-example prompt -/

theorem infix_append_cases {p l1 l2 : List Char} (h : p <:+: l1 ++ l2) :
    p <:+: l1 ∨ p <:+: l2 ∨
    ∃ k, 0 < k ∧ k < p.length ∧ p.take k <:+ l1 ∧ p.drop k <+: l2 := by
  obtain ⟨s, u, hsu⟩ := h
  have hsu2 : s ++ (p ++ u) = l1 ++ l2 := by
    rw [← List.append_assoc]
    exact hsu
  rcases List.append_eq_append_iff.mp hsu2 with ⟨a, ha1, ha2⟩ | ⟨c, hc1, hc2⟩
  · rcases List.append_eq_append_iff.mp ha2 with ⟨b, hb1, hb2⟩ | ⟨d, hd1, hd2⟩
    · left
      exact ⟨s, b, by rw [ha1, hb1, List.append_assoc]⟩
    · by_cases ha0 : a = []
      · right
        left
        subst ha0
        rw [List.nil_append] at hd1
        exact ⟨[], u, by rw [hd2, hd1, List.nil_append]⟩
      · by_cases hd0 : d = []
        · left
          subst hd0
          rw [List.append_nil] at hd1
          exact ⟨s, [], by rw [ha1, hd1, List.append_nil]⟩
        · right
          right
          refine ⟨a.length, List.length_pos.mpr ha0, ?_, ?_, ?_⟩
          · rw [hd1, List.length_append]
            have := List.length_pos.mpr hd0
            omega
          · rw [hd1, List.take_left]
            exact ⟨s, ha1.symm⟩
          · rw [hd1, List.drop_left]
            exact ⟨u, hd2.symm⟩
  · right
    left
    exact ⟨c, u, by rw [hc2, List.append_assoc]⟩

theorem suffix_getLast_eq {l1 l2 : List Char} (h : l1 <:+ l2) (hne : l1 ≠ []) :
    l2.getLast? = l1.getLast? := by
  obtain ⟨t, rfl⟩ := h
  exact List.getLast?_append_of_ne_nil t hne

theorem prefix_head_eq {l1 l2 : List Char} (h : l1 <+: l2) (hne : l1 ≠ []) :
    l2.head? = l1.head? := by
  obtain ⟨t, rfl⟩ := h
  cases l1 with
  | nil => exact absurd rfl hne
  | cons a as => rfl

theorem getLast?_mem_of_eq {l : List Char} {c : Char} (h : l.getLast? = some c) :
    c ∈ l := by
  obtain ⟨hne, heq⟩ := List.mem_getLast?_eq_getLast (l := l) (x := c)
    (Option.mem_def.mpr h)
  rw [heq]
  exact List.getLast_mem hne

theorem straddle_left_kill {E l : List Char} {k : Nat} (hk0 : 0 < k)
    (hk : k < E.length) (hsuf : E.take k <:+ l) :
    ∃ c, c ∈ E ∧ l.getLast? = some c := by
  have hne : E.take k ≠ [] := by
    intro h0
    have hlen := congrArg List.length h0
    rw [List.length_take] at hlen
    simp only [List.length_nil] at hlen
    omega
  have heq := suffix_getLast_eq hsuf hne
  have hsome := List.getLast?_eq_getLast (E.take k) hne
  refine ⟨(E.take k).getLast hne, ?_, by rw [heq, hsome]⟩
  exact List.take_subset k E (List.getLast_mem hne)

theorem straddle_right_kill {E l : List Char} {k : Nat}
    (hk : k < E.length) (hpre : E.drop k <+: l) :
    ∃ c, c ∈ E ∧ l.head? = some c := by
  have hne : E.drop k ≠ [] := by
    intro h0
    have hlen := congrArg List.length h0
    rw [List.length_drop] at hlen
    simp only [List.length_nil] at hlen
    omega
  have heq := prefix_head_eq hpre hne
  cases hd : E.drop k with
  | nil => exact absurd hd hne
  | cons c cs =>
    refine ⟨c, ?_, by rw [heq, hd]; rfl⟩
    exact List.drop_subset k E (by rw [hd]; simp)

theorem natDigits_digit : ∀ (fuel n : Nat), ∀ c ∈ natDigits fuel n,
    48 ≤ c.toNat ∧ c.toNat ≤ 57 := by
  intro fuel
  induction fuel with
  | zero =>
    intro n c hc
    simp [natDigits] at hc
  | succ fuel ih =>
    intro n c hc
    rw [natDigits] at hc
    by_cases hn : n = 0
    · rw [if_pos hn] at hc
      simp at hc
    · rw [if_neg hn] at hc
      rcases List.mem_append.mp hc with h1 | h2
      · exact ih (n / 10) c h1
      · have hr : n % 10 < 10 := Nat.mod_lt _ (by omega)
        simp only [List.mem_singleton] at h2
        subst h2
        set r := n % 10 with hrdef
        clear_value r
        interval_cases r <;> decide

theorem natRepr_digit (n : Nat) : ∀ c ∈ (natRepr n).data,
    48 ≤ c.toNat ∧ c.toNat ≤ 57 := by
  intro c hc
  rw [natRepr] at hc
  by_cases hn : n = 0
  · rw [if_pos hn] at hc
    have h0 : ("0" : String).data = ['0'] := rfl
    rw [h0, List.mem_singleton] at hc
    subst hc
    decide
  · rw [if_neg hn] at hc
    exact natDigits_digit n n c hc

set_option maxRecDepth 400000 in
theorem no_example_in_empty_prompt (tag : String) (n : Nat)
    (htag : ¬ ("Example".data <:+: tag.data)) :
    ¬ ("Example".data <:+: (construct_prompt_text tag n []).data) := by
  intro h
  have hnsp : ¬ (' ' ∈ "Example".data) := by decide
  have hndot : ¬ ('.' ∈ "Example".data) := by decide
  have hnd : ∀ c ∈ ("Example".data), ¬ (48 ≤ c.toNat ∧ c.toNat ≤ 57) := by
    decide
  have hdecomp : (construct_prompt_text tag n []).data =
      promptP1pre.data ++ (tag.data ++ (".".data ++ (" ".data ++
        (promptP2pre.data ++ ((natRepr n).data ++ (promptP2post.data ++
          (" ".data ++ (promptP3.data ++ (" ".data ++
            promptCloseNoEx.data))))))))) := by
    simp [construct_prompt_text, pyJoin, String.data_append, List.append_assoc]
  rw [hdecomp] at h
  rcases infix_append_cases h with h1 | h1 | ⟨k, hk0, hk7, hsuf, hpre⟩
  · revert h1
    decide
  · rcases infix_append_cases h1 with h2 | h2 | ⟨k, hk0, hk7, hsuf, hpre⟩
    · exact htag h2
    · rcases infix_append_cases h2 with h3 | h3 | ⟨k, hk0, hk7, hsuf, hpre⟩
      · revert h3
        decide
      · rcases infix_append_cases h3 with h4 | h4 | ⟨k, hk0, hk7, hsuf, hpre⟩
        · revert h4
          decide
        · rcases infix_append_cases h4 with h5 | h5 | ⟨k, hk0, hk7, hsuf, hpre⟩
          · revert h5
            decide
          · rcases infix_append_cases h5 with h6 | h6 | ⟨k, hk0, hk7, hsuf, hpre⟩
            · have hEmem : 'E' ∈ (natRepr n).data := h6.subset (by decide)
              have hdig := natRepr_digit n 'E' hEmem
              revert hdig
              decide
            · revert h6
              decide
            · obtain ⟨c, hcE, hcl⟩ := straddle_left_kill hk0 hk7 hsuf
              exact hnd c hcE (natRepr_digit n c (getLast?_mem_of_eq hcl))
          · obtain ⟨c, hcE, hcl⟩ := straddle_left_kill hk0 hk7 hsuf
            rw [show promptP2pre.data.getLast? = some ' ' from by decide] at hcl
            injection hcl with hc
            subst hc
            exact hnsp hcE
        · obtain ⟨c, hcE, hcl⟩ := straddle_left_kill hk0 hk7 hsuf
          rw [show ((" " : String).data).getLast? = some ' ' from rfl] at hcl
          injection hcl with hc
          subst hc
          exact hnsp hcE
      · obtain ⟨c, hcE, hcl⟩ := straddle_left_kill hk0 hk7 hsuf
        rw [show (("." : String).data).getLast? = some '.' from rfl] at hcl
        injection hcl with hc
        subst hc
        exact hndot hcE
    · obtain ⟨c, hcE, hcl⟩ := straddle_right_kill hk7 hpre
      have hdot : (("." : String).data ++ ((" " : String).data ++
          (promptP2pre.data ++ ((natRepr n).data ++ (promptP2post.data ++
            ((" " : String).data ++ (promptP3.data ++ ((" " : String).data ++
              promptCloseNoEx.data)))))))).head? = some '.' := rfl
      rw [hdot] at hcl
      injection hcl with hc
      subst hc
      exact hndot hcE
  · obtain ⟨c, hcE, hcl⟩ := straddle_left_kill hk0 hk7 hsuf
    rw [show promptP1pre.data.getLast? = some ' ' from by decide] at hcl
    injection hcl with hc
    subst hc
    exact hnsp hcE

set_option maxRecDepth 400000 in
/-- Claim C8, counterexample: the tag itself is interpolated into the
prompt, so for the tag "Example 1" the prompt composed with an empty
example list does contain the label "Example 1" — the claim as stated,
quantified over every target tag, is false. -/
theorem c8_counterexample :
    ("Example " ++ natRepr 1).data <:+:
      (construct_prompt_text "Example 1" 50 []).data := by
  decide

/-- Claim C8 (amended): composing a prompt with a non-empty example list
yields a string containing the 1-based labels "Example 1", "Example 2", ...
in order, one per example; and composing with an empty example list yields a
string containing no such label, provided the target tag does not itself
contain the substring "Example". -/
theorem c8_prompt_labels (tag : String) (n : Nat) (es : List String) :
    (es ≠ [] → ContainsInOrder (labelsFrom 0 es)
      (construct_prompt_text tag n es).data) ∧
    (¬ ("Example".data <:+: tag.data) → ∀ i : Nat,
      ¬ (("Example " ++ natRepr (i + 1)).data <:+:
        (construct_prompt_text tag n []).data)) := by
  constructor
  · exact cio_prompt tag n es
  · intro htag i hlab
    refine no_example_in_empty_prompt tag n htag ?_
    have hpref : "Example".data <+: ("Example " ++ natRepr (i + 1)).data := by
      refine ⟨' ' :: (natRepr (i + 1)).data, ?_⟩
      rw [String.data_append]
      rfl
    exact hpref.isInfix.trans hlab

theorem c8_prompt_labels_witness :
    ((["a", "b"] ≠ ([] : List String)) ∧
      ContainsInOrder (labelsFrom 0 ["a", "b"])
        (construct_prompt_text "reflective" 50 ["a", "b"]).data) ∧
    (¬ ("Example".data <:+: "reflective".data) ∧ ∀ i : Nat,
      ¬ (("Example " ++ natRepr (i + 1)).data <:+:
        (construct_prompt_text "reflective" 50 []).data)) :=
  ⟨⟨by decide, (c8_prompt_labels "reflective" 50 ["a", "b"]).1 (by decide)⟩,
    ⟨by decide, (c8_prompt_labels "reflective" 50 ["a", "b"]).2 (by decide)⟩⟩
